import Mathlib

/-!
Verification of the `azm` linear-scan register allocator
(`src/azm/regalloc.h`, `src/azm/regalloc.cpp`, `src/azm/interval_tree.h`).

The development shallowly embeds the allocator: machine integers
(`size_t`, `uint16_t`) are `Nat` with explicit modular reduction where the
source relies on unsigned wrap-around, pointers are integer handles
(`parent_id`, as used throughout `regalloc.cpp`), and fallible operations
(`std::unordered_map::at`, out-of-range container writes) return `Except`.
Each definition is translated from the corresponding source function.
-/

namespace Azm

/-! ## Code points (`interval_tree.h`, `CodePoint`)

`CodePoint` wraps a `size_t`; arithmetic is modulo `2^64`.  `early` clears
the low bit, `late` sets it, `next_inst`/`prev_inst` step by two from the
early half using wrapping unsigned arithmetic. -/

def W : Nat := 2 ^ 64

/-- `point_ & ~1` — clear the low bit. -/
def cpEarly (p : Nat) : Nat := p - p % 2

/-- `point_ | 1` — set the low bit. -/
def cpLate (p : Nat) : Nat := cpEarly p + 1

/-- `CodePoint{early().point_ + 2}` on a `size_t`. -/
def cpNextInst (p : Nat) : Nat := (cpEarly p + 2) % W

/-- `CodePoint{early().point_ - 2}` on a `size_t`: unsigned subtraction
wraps modulo `2^64`. -/
def cpPrevInst (p : Nat) : Nat := (cpEarly p + (W - 2)) % W

/-- `kMaximumInvalidCodePoint{SIZE_MAX}` (`regalloc.cpp`). -/
def kMaxInvalidCP : Nat := W - 1

/-- `kMinimalInterval` (`regalloc.cpp`): spans one instruction. -/
def kMinimalInterval : Nat := 2

/-! ## Intervals (`interval_tree.h`, `Interval`) -/

structure Interval where
  lo : Nat
  hi : Nat
deriving DecidableEq, Repr

/-- `low <= other.high && high >= other.low`. -/
def Interval.overlapsWith (a b : Interval) : Bool :=
  a.lo ≤ b.hi && a.hi ≥ b.lo

/-- `high.repr() - low.repr() == kMinimalInterval`: `size_t` subtraction,
wrapping modulo `2^64` when `high < low`. -/
def Interval.isMinimalIv (a : Interval) : Bool :=
  (a.hi + W - a.lo) % W == kMinimalInterval

/-- `other.low <= low && other.high >= high`. -/
def Interval.fullyWithin (a b : Interval) : Bool :=
  b.lo ≤ a.lo && b.hi ≥ a.hi

/-- Lexicographic key order of `absl::btree_map<Interval, T>`
(`operator<=>` compares `low` then `high`). -/
def Interval.keyLt (a b : Interval) : Bool :=
  a.lo < b.lo || (a.lo == b.lo && a.hi < b.hi)

/-! ## Register classes, registers, types (`regalloc.h`) -/

inductive RegClass where
  | int
  | float
  | vector
deriving DecidableEq, Repr

/-- The numeric value of the `RegClass` enum. -/
def RegClass.toNat : RegClass → Nat
  | .int => 0
  | .float => 1
  | .vector => 2

structure Register where
  cls : RegClass
  enc : Nat
deriving DecidableEq, Repr

/-- `Register::operator<=>`: class enum value, then encoding. -/
def Register.keyLt (a b : Register) : Bool :=
  a.cls.toNat < b.cls.toNat || (a.cls.toNat == b.cls.toNat && a.enc < b.enc)

/-- `class Type`: a `uint16_t` bitset — bits 0-2 base kind, 3-5 log2 of the
bit-size, 7-9 log2 of the lane count. -/
structure Ty where
  bits : Nat
deriving DecidableEq, Repr

/-- `size_bytes(): 1 << size()` where `size() = (bits_ >> 3) & 0x7`. -/
def Ty.sizeBytes (t : Ty) : Nat := 1 <<< ((t.bits >>> 3) &&& 0x7)

/-- The register class the allocator's per-class containers are keyed by
for a range of this type (the source writes `trees_.at(range->type)` with a
`RegClass`-keyed map; the class is taken from the type's base kind, with
non-register base kinds falling back to the integer class). -/
def Ty.regClass (t : Ty) : RegClass :=
  match t.bits &&& 0x7 with
  | 2 => RegClass.float
  | 4 => RegClass.vector
  | _ => RegClass.int

structure VReg where
  id : Nat
  ty : Ty
deriving DecidableEq, Repr

/-! ## Allocations (`regalloc.h`, `class Allocation`)

A `uint16_t` bitset.  The constructors OR the payload in exactly as the
source does: `kReg | (class << 2) | encoding` and `kSpill | (slot & 0x0FFF)`
— the payload is ORed starting at bit 0, on top of the two tag bits. -/

structure Allocation where
  bits : Nat
deriving DecidableEq, Repr

def Allocation.null : Allocation := ⟨0x1⟩

/-- `Allocation(Register reg)` / `Allocation::reg`. -/
def Allocation.reg (r : Register) : Allocation :=
  ⟨(0x2 ||| (r.cls.toNat <<< 2) ||| (r.enc &&& 0xFF)) % 65536⟩

/-- `Allocation(uint16_t spill_slot)` / `Allocation::spill(slot)`. -/
def Allocation.spill (slot : Nat) : Allocation :=
  ⟨(0x3 ||| (slot &&& 0x0FFF)) % 65536⟩

/-- `Allocation::spill()` — `spill(static_cast<uint16_t>(-1))`. -/
def Allocation.spillSentinel : Allocation := Allocation.spill 65535

def Allocation.isNull (a : Allocation) : Bool := a.bits == 0x1

def Allocation.isReg (a : Allocation) : Bool := a.bits &&& 0x3 == 0x2

def Allocation.isSpill (a : Allocation) : Bool := a.bits &&& 0x3 == 0x3

/-- `spill_slot(): bits_ & 0x0FFF`. -/
def Allocation.spillSlot (a : Allocation) : Nat := a.bits &&& 0x0FFF

/-- `is_nullspill(): is_spill() && spill_slot() == static_cast<uint16_t>(-1)`. -/
def Allocation.isNullspill (a : Allocation) : Bool :=
  a.isSpill && a.spillSlot == 65535

/-- `reg_class(): (bits_ >> 2) & 0x3` read back as a class (value 3 is the
reserved encoding; it is mapped to the integer class here, matching an
out-of-range enum cast only in that the payload bits are read as written). -/
def Allocation.regClassNat (a : Allocation) : Nat := (a.bits >>> 2) &&& 0x3

/-- `reg(): Register{reg_class(), static_cast<uint8_t>(bits_ & 0xFF)}`. -/
def Allocation.regOf (a : Allocation) : Register :=
  ⟨match a.regClassNat with
    | 0 => RegClass.int
    | 1 => RegClass.float
    | 2 => RegClass.vector
    | _ => RegClass.int,
   a.bits &&& 0xFF⟩

/-! ## Live ranges (`regalloc.h`, `struct LiveRange`)

`regalloc.cpp` refers to the parent bundle through the integer handle
`parent_id` into the allocator's bundle table; the model does the same.
The C++ field `end` is called `stop` here (`end` is reserved in Lean). -/

structure LRange where
  start : Nat
  stop : Nat
  parent_id : Nat
  spill_cost : Nat
  uses : List Nat
  vreg : VReg
deriving DecidableEq, Repr

instance : Inhabited LRange := ⟨⟨0, 0, 0, 0, [], ⟨0, ⟨0⟩⟩⟩⟩

def LRange.liveInterval (r : LRange) : Interval := ⟨r.start, r.stop⟩

/-- `LiveRange::is_minimal(): Interval{end, start}.is_minimal()` — the
source constructs the interval with its endpoints swapped, so the wrapped
difference `start - end` is compared against the minimal constant. -/
def LRange.isMinimalR (r : LRange) : Bool :=
  (Interval.mk r.stop r.start).isMinimalIv

/-- Modelled from the spec: "An interval is *minimal* iff `high − low`
equals the fixed minimal-interval constant (2 — one instruction)", applied
to a range's own `[start, end]` as the spec's bundle-minimality intends. -/
def spec_range_minimal (r : LRange) : Bool :=
  r.stop - r.start == kMinimalInterval

/-! ## `LiveBundle::truncated` on range data (`regalloc.cpp`, lines 10-47) -/

/-- One range's contribution to `LiveBundle::truncated(interval)`: skip it
when disjoint from the interval, keep it unchanged when fully within,
otherwise clone it, clamp `[start, end]` to the intersection and erase the
uses outside the clamp. -/
def truncOne (iv : Interval) (r : LRange) : Option LRange :=
  if !(iv.overlapsWith r.liveInterval) then none
  else if r.liveInterval.fullyWithin iv then some r
  else
    let ns := max r.start iv.lo
    let ne := min r.stop iv.hi
    some { r with start := ns, stop := ne,
                  uses := r.uses.filter (fun u => !(u < ns || ne < u)) }

/-- `LiveBundle::truncated` over the bundle's ranges; the empty result
models the `std::nullopt` return. -/
def truncList (rs : List LRange) (iv : Interval) : List LRange :=
  rs.filterMap (truncOne iv)

/-- The code points covered by some range of the list (a range covers the
closed interval `[start, end]`). -/
def coversPoint (rs : List LRange) (p : Nat) : Bool :=
  rs.any (fun r => r.start ≤ p && p ≤ r.stop)

/-- All use points of the ranges in order. -/
def allUses (rs : List LRange) : List Nat :=
  (rs.map LRange.uses).flatten

/-! ## `get_unused_preg` (`regalloc.cpp`, lines 226-247)

The function is modelled on the interferers' bundle allocations (the
pipeline looks them up through the bundle table first).  The enumerate
loop marks `used[i]` at the *interference's* index; a mark at an index not
below `used.size()` is an out-of-bounds write on the `std::vector<bool>`,
modelled as a runtime error. -/

inductive RtErr where
  | missingBundle
  | missingIsaClass
  | oobUsedWrite
  | emptyBundle
deriving DecidableEq, Repr

def markUsed (n : Nat) : Nat → List Allocation → Array Bool → Except RtErr (Array Bool)
  | _, [], used => .ok used
  | i, a :: rest, used =>
    if a.isReg then
      if i < n then markUsed n (i + 1) rest (used.setD i true)
      else .error .oobUsedWrite
    else markUsed n (i + 1) rest used

/-- The final scan: the first index whose `used` flag is still clear names
the returned register. -/
def firstUnused (regs : List Register) (used : Array Bool) : Option Register :=
  (List.range regs.length).findSome?
    (fun i => if used.getD i false then none else regs[i]?)

def get_unused_preg (regs : List Register) (interfAllocs : List Allocation) :
    Except RtErr (Option Register) := do
  let used ← markUsed regs.length 0 interfAllocs (Array.mkArray regs.length false)
  pure (firstUnused regs used)

/-- Modelled from the spec: "mark as used every register currently held by
an interferer whose bundle's allocation is `Reg`, and return the first
unused register in ISA-declared order". -/
def spec_get_unused_preg (regs : List Register) (interfAllocs : List Allocation) :
    Option Register :=
  regs.find? (fun r => !(interfAllocs.any (fun a => a.isReg && a.regOf == r)))

/-! ## `find_split_spot` (`regalloc.cpp`, lines 51-75) -/

def find_split_spot (r : LRange) (interfs : List LRange) : Option Nat :=
  let initial := interfs.foldl
    (fun acc i => if i.start < acc then max i.start r.start else acc) kMaxInvalidCP
  if initial == kMaxInvalidCP then none
  else if initial != r.start then some initial
  else match r.uses with
    | [] => some (cpNextInst r.start)
    | u :: _ =>
      if u == r.stop || u == r.start then some (cpNextInst r.start) else some u

/-! ## Output-side ranges, stitch discovery (`regalloc.cpp`, lines 77-112)

`discover_stitches` and `assign_spillslots` read and write an allocation
through the range (`interval.allocation()`, `range->set_allocation`); the
allocation a range carries is materialised from its parent bundle when the
bundle table is drained. -/

structure ORange where
  start : Nat
  stop : Nat
  parent_id : Nat
  spill_cost : Nat
  uses : List Nat
  vreg : VReg
  alloc : Allocation
deriving DecidableEq, Repr

instance : Inhabited ORange := ⟨⟨0, 0, 0, 0, [], ⟨0, ⟨0⟩⟩, Allocation.null⟩⟩

def ORange.interval (r : ORange) : Interval := ⟨r.start, r.stop⟩

def listLexLt : List Nat → List Nat → Bool
  | [], [] => false
  | [], _ :: _ => true
  | _ :: _, [] => false
  | a :: as, b :: bs => a < b || (a == b && listLexLt as bs)

def VReg.keyLt (a b : VReg) : Bool :=
  a.id < b.id || (a.id == b.id && a.ty.bits < b.ty.bits)

/-- `LiveRange::operator<=>` (defaulted): `start`, `end`, the parent
handle, `spill_cost`, `uses` (lexicographic), `vreg`. -/
def ORange.keyLt (a b : ORange) : Bool :=
  a.start < b.start || (a.start == b.start &&
    (a.stop < b.stop || (a.stop == b.stop &&
      (a.parent_id < b.parent_id || (a.parent_id == b.parent_id &&
        (a.spill_cost < b.spill_cost || (a.spill_cost == b.spill_cost &&
          (listLexLt a.uses b.uses || (a.uses == b.uses &&
            VReg.keyLt a.vreg b.vreg)))))))))

/-- Stable insertion into a list sorted by the strict order `lt`: the new
element goes before every element it is not greater than. -/
def insertSorted (lt : α → α → Bool) (x : α) : List α → List α
  | [] => [x]
  | y :: ys => if lt y x then y :: insertSorted lt x ys else x :: y :: ys

def sortByLt (lt : α → α → Bool) (l : List α) : List α :=
  l.foldr (insertSorted lt) []

structure Stitch where
  codepoint : Nat
  from_ : Allocation
  to_ : Allocation
  vreg : VReg
deriving DecidableEq, Repr

/-- The `std::map<Interval, …> intervals` pass of `discover_stitches`:
`emplace` keeps the first range (in sorted order) for each distinct
interval, and iterating the map visits the kept ranges in interval key
order, which on the sorted list is the list order with later duplicates of
an interval dropped. -/
def dedupByInterval (seen : List Interval) : List ORange → List ORange
  | [] => []
  | r :: rest =>
    if seen.contains r.interval then dedupByInterval seen rest
    else r :: dedupByInterval (r.interval :: seen) rest

def vlookup (m : List (VReg × ORange)) (v : VReg) : Option ORange :=
  (m.find? (fun p => p.1 == v)).map Prod.snd

def vinsert (m : List (VReg × ORange)) (v : VReg) (r : ORange) :
    List (VReg × ORange) :=
  (v, r) :: m

/-- The emission loop of `discover_stitches`: per kept range in key order,
a range whose vreg has an entry in `last_used` with a *different*
allocation pushes a stitch and replaces the entry; with an *equal*
allocation the loop `continue`s — without updating `last_used` — and a
vreg seen for the first time only records itself. -/
def stitchWalk (last : List (VReg × ORange)) : List ORange → List Stitch
  | [] => []
  | r :: rest =>
    match vlookup last r.vreg with
    | none => stitchWalk (vinsert last r.vreg r) rest
    | some p =>
      if p.alloc == r.alloc then stitchWalk last rest
      else ⟨cpNextInst p.stop, p.alloc, r.alloc, r.vreg⟩ ::
        stitchWalk (vinsert last r.vreg r) rest

def discover_stitches (rs : List ORange) : List Stitch :=
  stitchWalk [] (dedupByInterval [] (sortByLt ORange.keyLt rs))

/-- The per-vreg walk of the amended stitch claim: an anchor starts at the
vreg's first range; a next range with a differing allocation emits exactly
one stitch `{vreg, from := anchor.allocation, to := next.allocation,
at := anchor.end.next_inst()}` and the anchor moves to it; an equal
allocation emits nothing and leaves the anchor in place. -/
def chainStitches : Option ORange → List ORange → List Stitch
  | _, [] => []
  | none, r :: rest => chainStitches (some r) rest
  | some p, r :: rest =>
    if p.alloc == r.alloc then chainStitches (some p) rest
    else ⟨cpNextInst p.stop, p.alloc, r.alloc, r.vreg⟩ ::
      chainStitches (some r) rest

/-- Modelled from the spec: "whenever the allocation carried by the next
range differs from the previous one, emit a `Stitch { vreg, from:
prev.allocation, to: next.allocation, at: prev.end.next_inst() }`" — the
`at` point always comes from the *immediately preceding* range. -/
def spec_chain_stitches : Option ORange → List ORange → List Stitch
  | _, [] => []
  | none, r :: rest => spec_chain_stitches (some r) rest
  | some p, r :: rest =>
    (if p.alloc == r.alloc then []
     else [⟨cpNextInst p.stop, p.alloc, r.alloc, r.vreg⟩])
    ++ spec_chain_stitches (some r) rest

/-! ## `assign_spillslots` (`regalloc.cpp`, lines 114-162)

The source sorts the gathered ranges by `start` and walks them with
`current` starting at code point 0 and advancing one `next_inst()` per
range.  `active_ranges` is never added to, so the pruning pass has no
effect; `active_stitch_mapping` is never written, so the lookup always
misses and every range with `start < current.late()` takes the fresh-slot
branch — its allocation is overwritten with `Spill(delta)` whether or not
its bundle was spilled — while a range with `start >= current.late()` is
left untouched.  `Allocation::stack` is the slot constructor
`Allocation::spill`. -/

def spillWalk (current delta : Nat) : List ORange → List ORange
  | [] => []
  | r :: rest =>
    if r.start < cpLate current then
      { r with alloc := Allocation.spill delta } ::
        spillWalk (cpNextInst current) (delta + r.vreg.ty.sizeBytes) rest
    else
      r :: spillWalk (cpNextInst current) delta rest

def assign_spillslots (rs : List ORange) : List ORange :=
  spillWalk 0 0 (sortByLt (fun a b => a.start < b.start) rs)

/-! ## Allocator state (`regalloc.h`, `class Allocator`; `regalloc.cpp`)

One interval index per register class (sorted association lists in btree
key order), the bundle table (`IndexedMap`: an association list in
insertion order with a monotone counter — its `unordered_map` iterates in
that order here), and the two priority queues, modelled as lists whose pop
takes the earliest-pushed element of maximal `spill_cost`; the C++ heap's
choice among equal costs is unspecified, and every concrete trace below
pops either a unique maximum or an element all of whose cost-ties are the
same range id. -/

structure LBundle where
  rids : List Nat
  alloc : Allocation
deriving DecidableEq, Repr

structure AllocState where
  ranges : Array LRange
  bundles : List (Nat × LBundle)
  bcounter : Nat
  treeInt : List (Interval × Nat)
  treeFloat : List (Interval × Nat)
  treeVector : List (Interval × Nat)
  pending : List Nat
  second : List Nat
  isa : List (RegClass × List Register)
deriving DecidableEq, Repr

def rangeOf (st : AllocState) (rid : Nat) : LRange := st.ranges.getD rid default

/-- `bundles_.at(key)`: `std::unordered_map::at` throws on a missing key. -/
def getBundle (st : AllocState) (bid : Nat) : Except RtErr LBundle :=
  match st.bundles.find? (fun p => p.1 == bid) with
  | some p => .ok p.2
  | none => .error .missingBundle

def setBundleAllocM (st : AllocState) (bid : Nat) (a : Allocation) :
    Except RtErr AllocState := do
  let _ ← getBundle st bid
  .ok { st with bundles := st.bundles.map (fun p =>
          if p.1 == bid then (p.1, ⟨p.2.rids, a⟩) else p) }

def treeOf (st : AllocState) : RegClass → List (Interval × Nat)
  | .int => st.treeInt
  | .float => st.treeFloat
  | .vector => st.treeVector

def setTree (st : AllocState) (c : RegClass) (t : List (Interval × Nat)) :
    AllocState :=
  match c with
  | .int => { st with treeInt := t }
  | .float => { st with treeFloat := t }
  | .vector => { st with treeVector := t }

/-- `IntervalTree::insert`: a no-op when the key already exists (the
inserted flag is discarded by every caller in `regalloc.cpp`). -/
def treeInsert (k : Interval) (v : Nat) :
    List (Interval × Nat) → List (Interval × Nat)
  | [] => [(k, v)]
  | (k', v') :: rest =>
    if Interval.keyLt k k' then (k, v) :: (k', v') :: rest
    else if k == k' then (k', v') :: rest
    else (k', v') :: treeInsert k v rest

/-- `IntervalTree::remove`: erase the exact key. -/
def treeRemove (k : Interval) :
    List (Interval × Nat) → List (Interval × Nat)
  | [] => []
  | (k', v') :: rest => if k == k' then rest else (k', v') :: treeRemove k rest

/-- `IntervalTree::overlap`: position at `lower_bound(query)`, step back
one entry if that predecessor overlaps, then collect every overlapping
entry scanning forward.  Overlapping entries lying before the single
predecessor step are missed, exactly as in the source. -/
def overlapQuery (tree : List (Interval × Nat)) (q : Interval) : List Nat :=
  let lb := (tree.findIdx? (fun p => !(Interval.keyLt p.1 q))).getD tree.length
  let s :=
    if lb = 0 then lb
    else match tree[lb - 1]? with
      | some p => if p.1.overlapsWith q then lb - 1 else lb
      | none => lb
  ((tree.drop s).filter (fun p => p.1.overlapsWith q)).map Prod.snd

/-- `isa_.registers.at(type)`: `std::map::at` throws on a missing class. -/
def isaRegs (st : AllocState) (c : RegClass) : Except RtErr (List Register) :=
  match st.isa.find? (fun p => p.1 == c) with
  | some p => .ok p.2
  | none => .error .missingIsaClass

/-- The interferers' bundle allocations, looked up through the bundle
table as `bundles_.at(interference->parent_id).allocation()`. -/
def interfAllocs (st : AllocState) (interfs : List Nat) :
    Except RtErr (List Allocation) :=
  interfs.mapM (fun rid => do
    let b ← getBundle st (rangeOf st rid).parent_id
    pure b.alloc)

/-- `std::map<Register, size_t>` accumulation of
`calculate_eviction_costs`, keyed in `Register` order. -/
def costMapAdd (r : Register) (c : Nat) :
    List (Register × Nat) → List (Register × Nat)
  | [] => [(r, c)]
  | (r', c') :: rest =>
    if Register.keyLt r r' then (r, c) :: (r', c') :: rest
    else if r == r' then (r', c' + c) :: rest
    else (r', c') :: costMapAdd r c rest

def calculate_eviction_costs (st : AllocState) (interfs : List Nat) :
    Except RtErr (List (Register × Nat)) :=
  interfs.foldlM (fun acc rid => do
    let r := rangeOf st rid
    let b ← getBundle st r.parent_id
    if b.alloc.isReg then pure (costMapAdd b.alloc.regOf r.spill_cost acc)
    else pure acc) []

/-- `bundle.allocation().reg() == reg` as `evict_for` compares it, with
the debug-only `assert(is_reg())` stripped: the payload bits are read as
written, class field against class value and low byte against encoding. -/
def allocRegEquals (a : Allocation) (r : Register) : Bool :=
  a.regClassNat == r.cls.toNat && (a.bits &&& 0xFF) == r.enc

/-- `Allocator::evict_for`: remove from the register's class index every
interferer whose bundle currently holds that register.  The evicted
bundles' allocations are not cleared and the evicted ranges are not
re-queued. -/
def evict_for (st : AllocState) (reg : Register) (interfs : List Nat) :
    Except RtErr AllocState :=
  interfs.foldlM (fun s rid => do
    let r := rangeOf s rid
    let b ← getBundle s r.parent_id
    if allocRegEquals b.alloc reg then
      pure (setTree s reg.cls (treeRemove ⟨r.start, r.stop⟩ (treeOf s reg.cls)))
    else pure s) st

/-- `Allocator::try_assign_might_evict`. -/
def try_assign_might_evict (st : AllocState) (rid : Nat) (interfs : List Nat) :
    Except RtErr (Option Register × AllocState) := do
  let r := rangeOf st rid
  let regs ← isaRegs st r.vreg.ty.regClass
  let allocs ← interfAllocs st interfs
  let preg? ← get_unused_preg regs allocs
  match preg? with
  | some preg => pure (some preg, st)
  | none =>
    let costs ← calculate_eviction_costs st interfs
    let best := costs.foldl (fun acc rc =>
      match acc with
      | none => some rc
      | some b => if rc.2 < b.2 then some rc else some b) none
    match best with
    | none => pure (none, st)
    | some (breg, bcost) =>
      if bcost < r.spill_cost then do
        let st1 ← evict_for st breg interfs
        pure (some breg, st1)
      else pure (none, st)

/-- The truncation pass of `try_split` at the handle level: keep a
fully-contained range by id, clone a clamped copy (appended to the range
array) otherwise. -/
def truncIds (ranges : Array LRange) (rids : List Nat) (iv : Interval) :
    List Nat × Array LRange :=
  match rids with
  | [] => ([], ranges)
  | rid :: rest =>
    let r := ranges.getD rid default
    if !(iv.overlapsWith r.liveInterval) then truncIds ranges rest iv
    else if r.liveInterval.fullyWithin iv then
      let (ids, rs) := truncIds ranges rest iv
      (rid :: ids, rs)
    else
      let ns := max r.start iv.lo
      let ne := min r.stop iv.hi
      let newUses := r.uses.filter (fun u => !(u < ns || ne < u))
      let clone := { r with start := ns, stop := ne, uses := newUses }
      let cid := ranges.size
      let (ids, rs) := truncIds (ranges.push clone) rest iv
      (cid :: ids, rs)

/-- `LiveBundle::is_minimal(): ranges_.size() == 1 &&
ranges_.front()->is_minimal()`. -/
def bundleIsMinimal (st : AllocState) (b : LBundle) : Bool :=
  b.rids.length == 1 &&
    (match b.rids with
     | rid :: _ => (rangeOf st rid).isMinimalR
     | [] => false)

def repoint (ranges : Array LRange) (ids : List Nat) (pid : Nat) :
    Array LRange :=
  ids.foldl (fun a i => a.setD i { a.getD i default with parent_id := pid }) ranges

/-- `Allocator::try_split` (`regalloc.cpp`, lines 295-333): fail on a
minimal bundle; truncate to `[bundle.start, at.prev_inst().late()]` and
`[at, bundle.end]`; fail (without observable mutation — clones the source
leaks are unreachable) if either child is empty; otherwise erase the
parent bundle, push the boundary ranges onto `pending` when a range was
cut in two, insert the children and re-point their ranges. -/
def try_split (st : AllocState) (rid cut : Nat) :
    Except RtErr (Bool × AllocState) := do
  let pid := (rangeOf st rid).parent_id
  let b ← getBundle st pid
  if bundleIsMinimal st b then pure (false, st)
  else
    match b.rids with
    | [] => .error .emptyBundle
    | first :: _ =>
      let lo := (rangeOf st first).start
      let hi := (rangeOf st (b.rids.getLastD 0)).stop
      let (lids, ranges1) := truncIds st.ranges b.rids ⟨lo, cpLate (cpPrevInst cut)⟩
      let (rids2, ranges2) := truncIds ranges1 b.rids ⟨cut, hi⟩
      if lids.isEmpty || rids2.isEmpty then pure (false, st)
      else
        let newBundles := st.bundles.filter (fun p => !(p.1 == pid))
        let st1 := { st with ranges := ranges2, bundles := newBundles }
        let st2 :=
          if lids.length + rids2.length != b.rids.length then
            { st1 with pending := st1.pending ++ [lids.getLastD 0, rids2.headD 0] }
          else st1
        let lid := st2.bcounter
        let rid2 := st2.bcounter + 1
        let st3 := { st2 with
          bundles := st2.bundles ++ [(lid, LBundle.mk lids b.alloc), (rid2, LBundle.mk rids2 b.alloc)],
          bcounter := st2.bcounter + 2 }
        pure (true, { st3 with ranges := repoint (repoint st3.ranges lids lid) rids2 rid2 })

/-- `Allocator::run_once` (`regalloc.cpp`, lines 204-224). -/
def run_once (st : AllocState) (rid : Nat) :
    Except RtErr (Option Register × AllocState) := do
  let r := rangeOf st rid
  let interfs := overlapQuery (treeOf st r.vreg.ty.regClass) r.liveInterval
  let (preg?, st1) ← try_assign_might_evict st rid interfs
  if preg?.isSome then pure (preg?, st1)
  else
    match find_split_spot r (interfs.map (rangeOf st1)) with
    | none => pure (none, { st1 with second := st1.second ++ [rid] })
    | some cut => do
      let (ok, st2) ← try_split st1 rid cut
      if ok then pure (none, st2)
      else pure (none, { st2 with second := st2.second ++ [rid] })

/-- Pop the earliest-pushed maximal-cost element of a priority queue. -/
def popMax (st : AllocState) (q : List Nat) : Option (Nat × List Nat) :=
  match q.foldl (fun acc rid =>
    match acc with
    | none => some rid
    | some b =>
      if (rangeOf st rid).spill_cost > (rangeOf st b).spill_cost then some rid
      else some b) none with
  | some b => some (b, q.erase b)
  | none => none

/-- One phase-1 iteration: pop from `pending`, `run_once`; on success set
the bundle's allocation to `Allocation::reg` and insert the range into its
class index, on failure push it onto `second_chance`. -/
def p1step (st : AllocState) : Except RtErr AllocState := do
  match popMax st st.pending with
  | none => .ok st
  | some (rid, q) => do
    let (preg?, st1) ← run_once { st with pending := q } rid
    match preg? with
    | some preg => do
      let r := rangeOf st1 rid
      let st2 ← setBundleAllocM st1 r.parent_id (Allocation.reg preg)
      .ok (setTree st2 r.vreg.ty.regClass
            (treeInsert r.liveInterval rid (treeOf st2 r.vreg.ty.regClass)))
    | none => .ok { st1 with second := st1.second ++ [rid] }

/-- One phase-2 iteration: pop from `second_chance`, `run_once`; on
success as in phase 1, on failure mark the popped range's bundle
`Spill()` (slot sentinel). -/
def p2step (st : AllocState) : Except RtErr AllocState := do
  match popMax st st.second with
  | none => .ok st
  | some (rid, q) => do
    let (preg?, st1) ← run_once { st with second := q } rid
    match preg? with
    | some preg => do
      let r := rangeOf st1 rid
      let st2 ← setBundleAllocM st1 r.parent_id (Allocation.reg preg)
      .ok (setTree st2 r.vreg.ty.regClass
            (treeInsert r.liveInterval rid (treeOf st2 r.vreg.ty.regClass)))
    | none => do
      let r := rangeOf st1 rid
      setBundleAllocM st1 r.parent_id Allocation.spillSentinel

/-- The phase-1 loop, fuel-indexed; `none` means the fuel ran out with the
queue still non-empty. -/
def phase1 : Nat → AllocState → Option (Except RtErr AllocState)
  | 0, st => if st.pending.isEmpty then some (.ok st) else none
  | n + 1, st =>
    if st.pending.isEmpty then some (.ok st)
    else match p1step st with
      | .error e => some (.error e)
      | .ok st' => phase1 n st'

/-- The phase-2 loop, fuel-indexed. -/
def phase2 : Nat → AllocState → Option (Except RtErr AllocState)
  | 0, st => if st.second.isEmpty then some (.ok st) else none
  | n + 1, st =>
    if st.second.isEmpty then some (.ok st)
    else match p2step st with
      | .error e => some (.error e)
      | .ok st' => phase2 n st'

/-! ## Input, seeding, output assembly -/

structure InputRange where
  start : Nat
  stop : Nat
  spill_cost : Nat
  uses : List Nat
  vreg : VReg
deriving DecidableEq, Repr

structure InputBundle where
  ranges : List InputRange
deriving DecidableEq, Repr

/-- The seeding loop of `Allocator::run`: push every range of every bundle
onto `pending` and insert the bundle into the table; a range's
`parent_id` is the handle its bundle receives. -/
def seedGo (st : AllocState) : List InputBundle → AllocState
  | [] => st
  | b :: rest =>
    let bid := st.bcounter
    let base := st.ranges.size
    let newRanges := b.ranges.map (fun ir =>
      ({ start := ir.start, stop := ir.stop, parent_id := bid,
         spill_cost := ir.spill_cost, uses := ir.uses, vreg := ir.vreg } : LRange))
    let ids := (List.range newRanges.length).map (· + base)
    seedGo { st with
      ranges := newRanges.foldl Array.push st.ranges,
      bundles := st.bundles ++ [(bid, ⟨ids, Allocation.null⟩)],
      bcounter := bid + 1,
      pending := st.pending ++ ids } rest

def seed (isa : List (RegClass × List Register)) (bs : List InputBundle) :
    AllocState :=
  seedGo ⟨#[], [], 0, [], [], [], [], [], isa⟩ bs

/-- `IndexedMap::extract_all` over the bundle table, in table order. -/
def extractBundles (st : AllocState) : List LBundle := st.bundles.map Prod.snd

/-- Materialise the output ranges: each surviving range paired with its
parent bundle's allocation. -/
def materialize (st : AllocState) (bs : List LBundle) : List ORange :=
  (bs.map (fun b => b.rids.map (fun rid =>
    let r := rangeOf st rid
    ({ start := r.start, stop := r.stop, parent_id := r.parent_id,
       spill_cost := r.spill_cost, uses := r.uses, vreg := r.vreg,
       alloc := b.alloc } : ORange)))).flatten

structure Output where
  allocations : List ORange
  stitches : List Stitch
deriving DecidableEq, Repr

/-- `Output::from_bundles`: discover the stitches, then assign the spill
slots (the allocations list is in start-sorted order, as
`assign_spillslots` leaves it). -/
def from_bundles (rs : List ORange) : Output :=
  ⟨assign_spillslots rs, discover_stitches rs⟩

/-- `Allocator::run` (`regalloc.cpp`, lines 166-202), fuel-indexed:
seeding, phase 1 over `pending`, phase 2 over `second_chance`, then the
output pass over the drained bundle table.  `none` means the fuel ran out
before a queue drained. -/
def runalloc (fuel : Nat) (isa : List (RegClass × List Register))
    (bs : List InputBundle) : Option (Except RtErr Output) :=
  let st0 := seed isa bs
  match phase1 fuel st0 with
  | none => none
  | some (.error e) => some (.error e)
  | some (.ok st1) =>
    match phase2 fuel st1 with
    | none => none
    | some (.error e) => some (.error e)
    | some (.ok st2) => some (.ok (from_bundles (materialize st2 (extractBundles st2))))

/-! ## Input well-formedness and the output invariants of the claims -/

def usesSortedLe : List Nat → Bool
  | [] => true
  | [_] => true
  | a :: b :: rest => a ≤ b && usesSortedLe (b :: rest)

def wfInputRange (r : InputRange) : Bool :=
  r.start ≤ r.stop && r.stop < W
    && r.uses.all (fun u => r.start ≤ u && u ≤ r.stop)
    && usesSortedLe r.uses

/-- Consecutive ranges of a bundle, sorted by start and pairwise
non-overlapping (closed intervals): each ends strictly before the next
starts. -/
def bundleChainOk : List InputRange → Bool
  | [] => true
  | [_] => true
  | a :: b :: rest => a.stop < b.start && bundleChainOk (b :: rest)

/-- Well-formed input (spec §3): non-empty bundles of well-formed, sorted,
non-overlapping ranges, and a non-empty ISA register list for every class
the input uses. -/
def wfInput (isa : List (RegClass × List Register)) (bs : List InputBundle) :
    Bool :=
  bs.all (fun b => !b.ranges.isEmpty
      && b.ranges.all wfInputRange && bundleChainOk b.ranges)
    && bs.all (fun b => b.ranges.all (fun r =>
        match isa.find? (fun p => p.1 == r.vreg.ty.regClass) with
        | some p => !p.2.isEmpty
        | none => false))

/-- The non-interference invariant on the output ranges: every
overlapping pair shares its virtual register or carries different
allocations (in particular, equal spill slots overlap only within one
vreg). -/
def pairsOk : List ORange → Bool
  | [] => true
  | r :: rest =>
    rest.all (fun r2 =>
      !(r.interval.overlapsWith r2.interval)
        || r.vreg == r2.vreg || !(r.alloc == r2.alloc))
    && pairsOk rest

def nonInterference (rs : List ORange) : Bool := pairsOk rs

/-! ## Concrete scenarios

Small well-formed inputs used to evaluate the allocator.  All virtual
registers are 32-bit integers (`Type` bits: base `Int = 1`, size `B32 = 2`
shifted to bits 3-5, one lane). -/

def tyI32 : Ty := ⟨17⟩

def c1isa : List (RegClass × List Register) :=
  [(RegClass.int, [⟨RegClass.int, 0⟩, ⟨RegClass.int, 1⟩])]

/-- Three singleton bundles: `v0 [0,9] cost 30`, `v1 [3,8] cost 20`,
`v2 [5,7] cost 10`. -/
def c1bundles : List InputBundle :=
  [⟨[⟨0, 9, 30, [], ⟨0, tyI32⟩⟩]⟩,
   ⟨[⟨3, 8, 20, [], ⟨1, tyI32⟩⟩]⟩,
   ⟨[⟨5, 7, 10, [], ⟨2, tyI32⟩⟩]⟩]

/-- The output ranges `runalloc` produces on the first scenario. -/
def c1out : List ORange :=
  [⟨0, 9, 0, 30, [], ⟨0, tyI32⟩, ⟨3⟩⟩,
   ⟨3, 8, 1, 20, [], ⟨1, tyI32⟩, ⟨3⟩⟩,
   ⟨5, 7, 2, 10, [], ⟨2, tyI32⟩, ⟨2⟩⟩]

def c2isa : List (RegClass × List Register) :=
  [(RegClass.int, [⟨RegClass.int, 0⟩])]

/-- Three singleton bundles on a one-register class: `v0 [0,1] cost 30`,
`v1 [2,3] cost 20`, `v2 [0,3] cost 10`. -/
def c2bundles : List InputBundle :=
  [⟨[⟨0, 1, 30, [], ⟨0, tyI32⟩⟩]⟩,
   ⟨[⟨2, 3, 20, [], ⟨1, tyI32⟩⟩]⟩,
   ⟨[⟨0, 3, 10, [], ⟨2, tyI32⟩⟩]⟩]

def c3isa : List (RegClass × List Register) :=
  [(RegClass.int, [⟨RegClass.int, 0⟩])]

/-- Two singleton bundles on a one-register class: `v0 [0,1] cost 10`,
`v1 [0,1] cost 5` with a use at `0`. -/
def c3bundles : List InputBundle :=
  [⟨[⟨0, 1, 10, [], ⟨0, tyI32⟩⟩]⟩,
   ⟨[⟨0, 1, 5, [0], ⟨1, tyI32⟩⟩]⟩]

def c3ranges : Array LRange :=
  #[⟨0, 1, 0, 10, [], ⟨0, tyI32⟩⟩, ⟨0, 1, 1, 5, [0], ⟨1, tyI32⟩⟩]

/-- The seeded state of the third scenario. -/
def c3stSeed : AllocState :=
  { ranges := c3ranges,
    bundles := [(0, LBundle.mk [0] Allocation.null),
                (1, LBundle.mk [1] Allocation.null)],
    bcounter := 2, treeInt := [], treeFloat := [], treeVector := [],
    pending := [0, 1], second := [], isa := c3isa }

/-- After the first phase-1 iteration: `v0` holds the only register. -/
def c3stA : AllocState :=
  { ranges := c3ranges,
    bundles := [(0, LBundle.mk [0] ⟨2⟩), (1, LBundle.mk [1] Allocation.null)],
    bcounter := 2, treeInt := [(Interval.mk 0 1, 0)], treeFloat := [],
    treeVector := [], pending := [1], second := [], isa := c3isa }

/-- After phase 1: `v1` failed its split and sits on `second_chance`
twice — once pushed inside `run_once`, once by the main loop. -/
def c3st1 : AllocState :=
  { ranges := c3ranges,
    bundles := [(0, LBundle.mk [0] ⟨2⟩), (1, LBundle.mk [1] Allocation.null)],
    bcounter := 2, treeInt := [(Interval.mk 0 1, 0)], treeFloat := [],
    treeVector := [], pending := [], second := [1, 1], isa := c3isa }

/-- After one phase-2 iteration: `v1`'s bundle is marked with the spill
sentinel, and the queue holds `v1` twice again — a fixed point of the
phase-2 step. -/
def c3st2 : AllocState :=
  { ranges := c3ranges,
    bundles := [(0, LBundle.mk [0] ⟨2⟩), (1, LBundle.mk [1] ⟨4095⟩)],
    bcounter := 2, treeInt := [(Interval.mk 0 1, 0)], treeFloat := [],
    treeVector := [], pending := [], second := [1, 1], isa := c3isa }

/-- A single minimal bundle (`end − start = 2`), ready for `try_split`. -/
def c5st : AllocState :=
  { ranges := #[⟨0, 2, 0, 1, [], ⟨0, tyI32⟩⟩],
    bundles := [(0, LBundle.mk [0] Allocation.null)],
    bcounter := 1, treeInt := [], treeFloat := [], treeVector := [],
    pending := [], second := [], isa := [(RegClass.int, [⟨RegClass.int, 0⟩])] }

def c8v0 : VReg := ⟨0, tyI32⟩

/-- A bundle of one range `[0, 9]` with a use at code point `4`. -/
def c6st : AllocState :=
  { ranges := #[⟨0, 9, 0, 5, [4], ⟨0, tyI32⟩⟩],
    bundles := [(0, LBundle.mk [0] Allocation.null)],
    bcounter := 1, treeInt := [], treeFloat := [], treeVector := [],
    pending := [], second := [], isa := [(RegClass.int, [⟨RegClass.int, 0⟩])] }

/-- The same bundle's range list, for the truncation-level statements. -/
def c6rs : List LRange := [⟨0, 9, 0, 5, [4], ⟨0, tyI32⟩⟩]

/-- Output ranges where `v0`'s second range shares its exact interval with
a range of `v1` that sorts earlier (smaller parent handle). -/
def c7rs1 : List ORange :=
  [⟨0, 3, 0, 1, [], ⟨0, tyI32⟩, ⟨2⟩⟩,
   ⟨4, 9, 2, 1, [], ⟨0, tyI32⟩, ⟨7⟩⟩,
   ⟨4, 9, 1, 1, [], ⟨1, tyI32⟩, ⟨2⟩⟩]

/-- Output ranges of one vreg with a run of equal allocations before a
change: `[0,1] ↦ A`, `[2,3] ↦ A`, `[4,5] ↦ B`. -/
def c7rs2 : List ORange :=
  [⟨0, 1, 0, 1, [], ⟨0, tyI32⟩, ⟨2⟩⟩,
   ⟨2, 3, 1, 1, [], ⟨0, tyI32⟩, ⟨2⟩⟩,
   ⟨4, 5, 2, 1, [], ⟨0, tyI32⟩, ⟨7⟩⟩]

end Azm

deriving instance DecidableEq for Except

namespace Azm

/-! ## Loop lemmas shared by the run-level claims -/

/-- A state with an empty pending queue ends phase 1 at any fuel. -/
theorem phase1_done (n : Nat) (st : AllocState) (h : st.pending.isEmpty = true) :
    phase1 n st = some (.ok st) := by
  cases n <;> simp [phase1, h]

theorem phase1_step (n : Nat) (st st' : AllocState)
    (h : st.pending.isEmpty = false) (h' : p1step st = .ok st') :
    phase1 (n + 1) st = phase1 n st' := by
  simp [phase1, h, h']

theorem phase2_step (n : Nat) (st st' : AllocState)
    (h : st.second.isEmpty = false) (h' : p2step st = .ok st') :
    phase2 (n + 1) st = phase2 n st' := by
  simp [phase2, h, h']

/-- A non-final fixed point of the phase-2 step exhausts any fuel. -/
theorem phase2_fix (st : AllocState) (h : st.second.isEmpty = false)
    (hfix : p2step st = .ok st) : ∀ n, phase2 n st = none := by
  intro n
  induction n with
  | zero => simp [phase2, h]
  | succ n ih =>
    rw [phase2_step n st st h hfix]
    exact ih

/-- C1: non-interference fails on a well-formed input.  With ISA
`Int = [r0, r1]`, ranges `v0 [0,9] cost 30`, `v1 [3,8] cost 20` and
`v2 [5,7] cost 10`: `v0` takes `r0`; `v1`'s interference list makes
`get_unused_preg` return `r1`, whose `Allocation::reg` encoding
(`0b11`) is not even recognised as a register; `v2`'s overlap query
misses `v0` and its sole visible interferer is not counted, so `v2`
takes `r0` as well; finally `assign_spillslots` overwrites `v0`'s
allocation with `Spill(0)`, whose bits equal `v1`'s.  The output holds
`v0 [0,9]` and `v1 [3,8]` — overlapping, different virtual registers —
with identical allocations (equal spill slots). -/
theorem c1_noninterference_violated :
    wfInput c1isa c1bundles = true
    ∧ runalloc 16 c1isa c1bundles = some (.ok ⟨c1out, []⟩)
    ∧ nonInterference c1out = false
    ∧ (c1out.getD 0 default).interval.overlapsWith
        (c1out.getD 1 default).interval = true
    ∧ (c1out.getD 0 default).vreg ≠ (c1out.getD 1 default).vreg
    ∧ (c1out.getD 0 default).alloc = (c1out.getD 1 default).alloc := by
  exact ⟨by decide, rfl, by decide, by decide, by decide, by decide⟩

/-- C2: totality fails on a well-formed input.  With ISA `Int = [r0]`,
ranges `v0 [0,1] cost 30` and `v1 [2,3] cost 20` are both assigned `r0`
(they are disjoint); `v2 [0,3] cost 10` then interferes with both, and
`get_unused_preg` marks `used[1]` on the one-element `std::vector<bool>`
— an out-of-bounds write — so the run aborts instead of returning a
complete assignment. -/
theorem c2_totality_fails_oob :
    wfInput c2isa c2bundles = true
    ∧ runalloc 8 c2isa c2bundles = some (.error RtErr.oobUsedWrite) := by
  exact ⟨by decide, rfl⟩

/-- C3: termination fails on a well-formed input.  With ISA `Int = [r0]`,
`v0 [0,1] cost 10` takes `r0`; `v1 [0,1] cost 5` can neither assign
(register marked used), evict (cost 10 ≥ 5) nor split (the right child of
the split at `next_inst(0) = 2` is empty), so phase 1 pushes it onto
`second_chance` twice — once inside `run_once`, once in the main loop.
Every phase-2 iteration then pops one copy, fails identically, pushes a
copy back, and re-marks the bundle spilled: the step has a fixed point
and the queue never drains, so `run` diverges at every fuel. -/
theorem c3_run_never_terminates :
    wfInput c3isa c3bundles = true
    ∧ ∀ fuel : Nat, runalloc fuel c3isa c3bundles = none := by
  refine ⟨by decide, ?_⟩
  intro fuel
  match fuel with
  | 0 => rfl
  | 1 => rfl
  | (n + 2) =>
    have hseed : seed c3isa c3bundles = c3stSeed := rfl
    have hp1 : phase1 (n + 2) (seed c3isa c3bundles) = some (.ok c3st1) := by
      rw [hseed, phase1_step (n + 1) c3stSeed c3stA rfl rfl,
          phase1_step n c3stA c3st1 rfl rfl]
      exact phase1_done n c3st1 rfl
    have hp2 : phase2 (n + 2) c3st1 = none := by
      rw [phase2_step (n + 1) c3st1 c3st2 rfl rfl]
      exact phase2_fix c3st2 rfl rfl (n + 1)
    show runalloc (n + 2) c3isa c3bundles = none
    simp only [runalloc, hp1, hp2]

/-- C4: `get_unused_preg` can return a register an interferer holds.  The
enumerate loop marks `used[i]` at the interference's index, not at the
index of the register the interferer's bundle holds: with registers
`[r0, r2]` (class `Int`, encodings 0 and 2) and one interferer holding
`r2`, the code marks `used[0]` and returns `r2` — the very register that
is occupied — where the spec-side search returns the first unheld
register `r0`.  On empty interferences both agree on the first register. -/
theorem c4_unused_preg_returns_held :
    get_unused_preg [⟨RegClass.int, 0⟩, ⟨RegClass.int, 2⟩]
        [Allocation.reg ⟨RegClass.int, 2⟩] = .ok (some ⟨RegClass.int, 2⟩)
    ∧ (Allocation.reg ⟨RegClass.int, 2⟩).isReg = true
    ∧ (Allocation.reg ⟨RegClass.int, 2⟩).regOf = ⟨RegClass.int, 2⟩
    ∧ spec_get_unused_preg [⟨RegClass.int, 0⟩, ⟨RegClass.int, 2⟩]
        [Allocation.reg ⟨RegClass.int, 2⟩] = some ⟨RegClass.int, 0⟩
    ∧ get_unused_preg [⟨RegClass.int, 0⟩, ⟨RegClass.int, 2⟩] []
        = .ok (some ⟨RegClass.int, 0⟩) := by
  exact ⟨rfl, rfl, rfl, rfl, rfl⟩

/-- C5: `try_split` on a minimal bundle succeeds and mutates.  The bundle
holds one range `[0, 2]` — minimal in the spec's sense (`end − start =
2`) — but `LiveRange::is_minimal` tests the *swapped* interval
`Interval{end, start}`, whose wrapped difference is `2^64 − 2`, so the
minimality guard never fires: `try_split` at `2` returns success and
replaces the bundle with two children instead of failing without
mutation. -/
theorem c5_minimal_bundle_still_splits :
    spec_range_minimal (rangeOf c5st 0) = true
    ∧ (rangeOf c5st 0).isMinimalR = false
    ∧ (try_split c5st 0 2).map Prod.fst = .ok true
    ∧ (try_split c5st 0 2).map
        (fun p => decide (p.2.bundles = c5st.bundles)) = .ok false := by
  exact ⟨rfl, rfl, rfl, rfl⟩

/-- C8: spill-slot assignment is disconnected from spill-ness.  A spilled
range starting at `2` satisfies `start >= current.late()` at its walk
position, receives no slot, and the `Spill()` sentinel (bits `0x0FFF`)
survives into the output; a *register*-allocated range starting at `0`
receives a slot; and two overlapping spilled ranges of the same virtual
register receive distinct slots (`0` and `4`) because the reuse map
`active_stitch_mapping` is never populated. -/
theorem c8_spillslot_assignment_broken :
    assign_spillslots [⟨2, 5, 0, 1, [], c8v0, Allocation.spillSentinel⟩]
      = [⟨2, 5, 0, 1, [], c8v0, Allocation.spillSentinel⟩]
    ∧ Allocation.spillSentinel.isSpill = true
    ∧ assign_spillslots [⟨0, 5, 1, 1, [], c8v0, Allocation.reg ⟨RegClass.int, 0⟩⟩]
      = [⟨0, 5, 1, 1, [], c8v0, Allocation.spill 0⟩]
    ∧ (Allocation.reg ⟨RegClass.int, 0⟩).isReg = true
    ∧ assign_spillslots
        [⟨0, 3, 0, 1, [], c8v0, Allocation.spillSentinel⟩,
         ⟨1, 6, 1, 1, [], c8v0, Allocation.spillSentinel⟩]
      = [⟨0, 3, 0, 1, [], c8v0, Allocation.spill 0⟩,
         ⟨1, 6, 1, 1, [], c8v0, Allocation.spill 4⟩] := by
  exact ⟨rfl, rfl, rfl, rfl, rfl⟩

/-! ## Truncation lemmas for split conservation -/

theorem truncList_cons (iv : Interval) (r : LRange) (rs : List LRange) :
    truncList (r :: rs) iv = (truncOne iv r).toList ++ truncList rs iv := by
  simp only [truncList, List.filterMap_cons]
  cases truncOne iv r <;> simp

theorem allUses_append (a b : List LRange) :
    allUses (a ++ b) = allUses a ++ allUses b := by
  simp [allUses]

theorem coversPoint_append (a b : List LRange) (p : Nat) :
    coversPoint (a ++ b) p = (coversPoint a p || coversPoint b p) := by
  simp [coversPoint, List.any_append]

theorem allUses_cons (r : LRange) (rs : List LRange) :
    allUses (r :: rs) = r.uses ++ allUses rs := by
  simp [allUses]

theorem coversPoint_cons (r : LRange) (rs : List LRange) (p : Nat) :
    coversPoint (r :: rs) p
      = ((decide (r.start ≤ p) && decide (p ≤ r.stop)) || coversPoint rs p) := by
  simp [coversPoint]

theorem truncOne_keep (lo hi : Nat) (r : LRange)
    (h3 : lo ≤ r.start) (h4 : r.stop ≤ hi) (h5 : r.start ≤ r.stop) :
    truncOne ⟨lo, hi⟩ r = some r := by
  have hov : (Interval.mk lo hi).overlapsWith r.liveInterval = true := by
    simp only [Interval.overlapsWith, LRange.liveInterval, Bool.and_eq_true,
      decide_eq_true_eq, ge_iff_le]
    omega
  have hfw : r.liveInterval.fullyWithin ⟨lo, hi⟩ = true := by
    simp only [Interval.fullyWithin, LRange.liveInterval, Bool.and_eq_true,
      decide_eq_true_eq, ge_iff_le]
    omega
  simp [truncOne, hov, hfw]

theorem truncOne_none (lo hi : Nat) (r : LRange)
    (h : hi < r.start ∨ r.stop < lo) :
    truncOne ⟨lo, hi⟩ r = none := by
  have hov : (Interval.mk lo hi).overlapsWith r.liveInterval = false := by
    simp only [Interval.overlapsWith, LRange.liveInterval, Bool.and_eq_false_iff,
      decide_eq_false_iff_not, not_le, ge_iff_le]
    omega
  simp [truncOne, hov]

theorem truncOne_left_clone (lo cut : Nat) (r : LRange)
    (hlo : lo ≤ r.start) (hs : r.start < cut) (he : cut ≤ r.stop) :
    truncOne ⟨lo, cut - 1⟩ r =
      some (LRange.mk r.start (cut - 1) r.parent_id r.spill_cost
        (r.uses.filter (fun u => !(u < r.start || cut - 1 < u))) r.vreg) := by
  have hov : (Interval.mk lo (cut - 1)).overlapsWith r.liveInterval = true := by
    simp only [Interval.overlapsWith, LRange.liveInterval, Bool.and_eq_true,
      decide_eq_true_eq, ge_iff_le]
    omega
  have hfw : r.liveInterval.fullyWithin ⟨lo, cut - 1⟩ = false := by
    simp only [Interval.fullyWithin, LRange.liveInterval, Bool.and_eq_false_iff,
      decide_eq_false_iff_not, not_le, ge_iff_le]
    omega
  have hmax : max r.start lo = r.start := Nat.max_eq_left hlo
  have hmin : min r.stop (cut - 1) = cut - 1 := Nat.min_eq_right (by omega)
  simp [truncOne, hov, hfw, hmax, hmin]

theorem truncOne_right_clone (hi cut : Nat) (r : LRange)
    (hs : r.start < cut) (he : cut ≤ r.stop) (hhi : r.stop ≤ hi) :
    truncOne ⟨cut, hi⟩ r =
      some (LRange.mk cut r.stop r.parent_id r.spill_cost
        (r.uses.filter (fun u => !(u < cut || r.stop < u))) r.vreg) := by
  have hov : (Interval.mk cut hi).overlapsWith r.liveInterval = true := by
    simp only [Interval.overlapsWith, LRange.liveInterval, Bool.and_eq_true,
      decide_eq_true_eq, ge_iff_le]
    omega
  have hfw : r.liveInterval.fullyWithin ⟨cut, hi⟩ = false := by
    simp only [Interval.fullyWithin, LRange.liveInterval, Bool.and_eq_false_iff,
      decide_eq_false_iff_not, not_le, ge_iff_le]
    omega
  have hmax : max r.start cut = cut := Nat.max_eq_right (by omega)
  have hmin : min r.stop hi = r.stop := Nat.min_eq_left hhi
  simp [truncOne, hov, hfw, hmax, hmin]

theorem coversPoint_nil (p : Nat) : coversPoint [] p = false := rfl

theorem allUses_nil : allUses [] = [] := rfl

theorem bool_or_shuffle (a b c d : Bool) :
    ((a || b) || (c || d)) = ((a || c) || (b || d)) := by
  cases a <;> cases b <;> cases c <;> cases d <;> rfl

theorem perm_shuffle {α : Type} (a b c d : List α) :
    ((a ++ b) ++ (c ++ d)).Perm ((a ++ c) ++ (b ++ d)) := by
  have h1 : ((b ++ c) ++ d).Perm ((c ++ b) ++ d) :=
    List.Perm.append_right d (List.perm_append_comm : (b ++ c).Perm (c ++ b))
  have h2 : (b ++ (c ++ d)).Perm (c ++ (b ++ d)) := by
    simpa [List.append_assoc] using h1
  have h3 := List.Perm.append_left a h2
  simpa [List.append_assoc] using h3

/-- Point coverage is preserved by splitting at `cut` into
`[lo, cut-1]` and `[cut, hi]`. -/
theorem trunc_covers (lo hi cut : Nat) (h2 : 2 ≤ cut) (hlo : lo < cut)
    (hhi : cut ≤ hi) :
    ∀ rs : List LRange,
      (∀ r ∈ rs, lo ≤ r.start ∧ r.start ≤ r.stop ∧ r.stop ≤ hi) →
      ∀ p : Nat,
        coversPoint (truncList rs ⟨lo, cut - 1⟩ ++ truncList rs ⟨cut, hi⟩) p
          = coversPoint rs p := by
  intro rs
  induction rs with
  | nil => intro _ p; simp [truncList, coversPoint]
  | cons r rest ih =>
    intro hb p
    have hbr := hb r (List.mem_cons_self r rest)
    have ihp := ih (fun x hx => hb x (List.mem_cons_of_mem r hx)) p
    rw [coversPoint_append] at ihp
    rw [truncList_cons, truncList_cons, coversPoint_append,
      coversPoint_append, coversPoint_append, coversPoint_cons]
    rcases Nat.lt_or_ge r.stop cut with hc | hc
    · rw [truncOne_keep lo (cut - 1) r (by omega) (by omega) (by omega),
        truncOne_none cut hi r (by omega)]
      simp only [Option.toList_some, Option.toList_none, List.singleton_append,
        List.nil_append, coversPoint_cons, coversPoint_nil, Bool.or_false,
        Bool.false_or]
      rw [Bool.or_assoc, ihp]
    · rcases Nat.lt_or_ge r.start cut with hsc | hsc
      · rw [truncOne_left_clone lo cut r (by omega) hsc (by omega),
          truncOne_right_clone hi cut r hsc (by omega) (by omega)]
        simp only [Option.toList_some, List.singleton_append, coversPoint_cons,
          coversPoint_nil, Bool.or_false, Bool.false_or]
        have hchk :
            ((decide (r.start ≤ p) && decide (p ≤ cut - 1))
              || (decide (cut ≤ p) && decide (p ≤ r.stop)))
            = (decide (r.start ≤ p) && decide (p ≤ r.stop)) := by
          rcases Nat.lt_or_ge p cut with hp | hp
          · have e1 : decide (cut ≤ p) = false := decide_eq_false (by omega)
            have e2 : decide (p ≤ cut - 1) = true := decide_eq_true (by omega)
            have e3 : decide (p ≤ r.stop) = true := decide_eq_true (by omega)
            simp [e1, e2, e3]
          · have e1 : decide (p ≤ cut - 1) = false := decide_eq_false (by omega)
            have e2 : decide (cut ≤ p) = true := decide_eq_true hp
            have e3 : decide (r.start ≤ p) = true := decide_eq_true (by omega)
            simp [e1, e2, e3]
        rw [bool_or_shuffle, hchk, ihp]
      · rw [truncOne_none lo (cut - 1) r (by omega),
          truncOne_keep cut hi r (by omega) (by omega) (by omega)]
        simp only [Option.toList_some, Option.toList_none, List.singleton_append,
          List.nil_append, coversPoint_cons, coversPoint_nil, Bool.or_false,
          Bool.false_or]
        rw [Bool.or_left_comm, ihp]

/-- The multiset of uses is preserved by splitting at `cut` into
`[lo, cut-1]` and `[cut, hi]`: every use lands in exactly one child. -/
theorem trunc_uses (lo hi cut : Nat) (h2 : 2 ≤ cut) (hlo : lo < cut)
    (hhi : cut ≤ hi) :
    ∀ rs : List LRange,
      (∀ r ∈ rs, lo ≤ r.start ∧ r.start ≤ r.stop ∧ r.stop ≤ hi) →
      (∀ r ∈ rs, ∀ u ∈ r.uses, r.start ≤ u ∧ u ≤ r.stop) →
      (allUses (truncList rs ⟨lo, cut - 1⟩)
        ++ allUses (truncList rs ⟨cut, hi⟩)).Perm (allUses rs) := by
  intro rs
  induction rs with
  | nil => intro _ _; simp [truncList, allUses]
  | cons r rest ih =>
    intro hb hu
    have hbr := hb r (List.mem_cons_self r rest)
    have hur := hu r (List.mem_cons_self r rest)
    have ihr := ih (fun x hx => hb x (List.mem_cons_of_mem r hx))
      (fun x hx => hu x (List.mem_cons_of_mem r hx))
    rw [truncList_cons, truncList_cons, allUses_cons]
    rcases Nat.lt_or_ge r.stop cut with hc | hc
    · rw [truncOne_keep lo (cut - 1) r (by omega) (by omega) (by omega),
        truncOne_none cut hi r (by omega)]
      simp only [Option.toList_some, Option.toList_none, List.singleton_append,
        List.nil_append, allUses_cons]
      rw [List.append_assoc]
      exact List.Perm.append_left r.uses ihr
    · rcases Nat.lt_or_ge r.start cut with hsc | hsc
      · rw [truncOne_left_clone lo cut r (by omega) hsc (by omega),
          truncOne_right_clone hi cut r hsc (by omega) (by omega)]
        simp only [Option.toList_some, List.singleton_append, allUses_cons]
        have hfR : r.uses.filter (fun u => !(u < cut || r.stop < u))
            = r.uses.filter (fun u => !(!(u < r.start || cut - 1 < u))) := by
          apply List.filter_congr
          intro u hu2
          have hbnd := hur u hu2
          rcases Nat.lt_or_ge u cut with hp | hp
          · have e1 : decide (u < cut) = true := decide_eq_true hp
            have e2 : decide (u < r.start) = false := decide_eq_false (by omega)
            have e3 : decide (cut - 1 < u) = false := decide_eq_false (by omega)
            simp [e1, e2, e3]
          · have e1 : decide (u < cut) = false := decide_eq_false (by omega)
            have e2 : decide (r.stop < u) = false := decide_eq_false (by omega)
            have e3 : decide (cut - 1 < u) = true := decide_eq_true (by omega)
            simp [e1, e2, e3]
        rw [hfR]
        have hpart := List.filter_append_perm
          (fun u => !(u < r.start || cut - 1 < u)) r.uses
        have hshuf := perm_shuffle
          (r.uses.filter (fun u => !(u < r.start || cut - 1 < u)))
          (allUses (truncList rest ⟨lo, cut - 1⟩))
          (r.uses.filter (fun u => !(!(u < r.start || cut - 1 < u))))
          (allUses (truncList rest ⟨cut, hi⟩))
        refine hshuf.trans ?_
        exact List.Perm.append hpart ihr
      · rw [truncOne_none lo (cut - 1) r (by omega),
          truncOne_keep cut hi r (by omega) (by omega) (by omega)]
        simp only [Option.toList_some, Option.toList_none, List.singleton_append,
          List.nil_append, allUses_cons]
        have h1 : ((allUses (truncList rest ⟨lo, cut - 1⟩) ++ r.uses)
            ++ allUses (truncList rest ⟨cut, hi⟩)).Perm
            ((r.uses ++ allUses (truncList rest ⟨lo, cut - 1⟩))
              ++ allUses (truncList rest ⟨cut, hi⟩)) :=
          List.Perm.append_right _
            (List.perm_append_comm :
              (allUses (truncList rest ⟨lo, cut - 1⟩) ++ r.uses).Perm
                (r.uses ++ allUses (truncList rest ⟨lo, cut - 1⟩)))
        have h2 : (allUses (truncList rest ⟨lo, cut - 1⟩)
            ++ (r.uses ++ allUses (truncList rest ⟨cut, hi⟩))).Perm
            (r.uses ++ (allUses (truncList rest ⟨lo, cut - 1⟩)
              ++ allUses (truncList rest ⟨cut, hi⟩))) := by
          simpa [List.append_assoc] using h1
        exact h2.trans (List.Perm.append_left r.uses ihr)

/-- C6 counterexample: splitting the bundle `[0,9]` (use at `4`) at the
odd point `5` succeeds, but the left boundary `at.prev_inst().late()` is
`3`: the children cover `[0,3]` and `[5,9]`, code point `4` is covered by
no child, and the use at `4` is dropped from both children. -/
theorem c6_odd_split_loses_use :
    (try_split c6st 0 5).map Prod.fst = .ok true
    ∧ cpLate (cpPrevInst 5) = 3
    ∧ allUses (truncList c6rs ⟨0, cpLate (cpPrevInst 5)⟩
        ++ truncList c6rs ⟨5, 9⟩) = []
    ∧ allUses c6rs = [4]
    ∧ coversPoint (truncList c6rs ⟨0, cpLate (cpPrevInst 5)⟩
        ++ truncList c6rs ⟨5, 9⟩) 4 = false
    ∧ coversPoint c6rs 4 = true := by
  exact ⟨rfl, by decide, rfl, rfl, rfl, rfl⟩

/-- C6 (amended): for a split at an *early* (even) code point `cut` with
`bundle.start < cut ≤ bundle.end`, the children truncated to
`[bundle.start, cut.prev_inst().late()]` and `[cut, bundle.end]` together
cover exactly the parent's code points, and the children's uses are a
permutation of the parent's — every use lands in exactly one child.  (At
an odd split point the code point `cut − 1` and any use on it are
dropped, as the counterexample shows.) -/
theorem c6_split_conservation_amended
    (rs : List LRange) (lo hi cut : Nat)
    (heven : cut % 2 = 0) (h2 : 2 ≤ cut) (hW : cut < W)
    (hlo : lo < cut) (hhi : cut ≤ hi)
    (hb : ∀ r ∈ rs, lo ≤ r.start ∧ r.start ≤ r.stop ∧ r.stop ≤ hi)
    (hu : ∀ r ∈ rs, ∀ u ∈ r.uses, r.start ≤ u ∧ u ≤ r.stop) :
    (∀ p : Nat,
      coversPoint (truncList rs ⟨lo, cpLate (cpPrevInst cut)⟩
        ++ truncList rs ⟨cut, hi⟩) p = coversPoint rs p)
    ∧ (allUses (truncList rs ⟨lo, cpLate (cpPrevInst cut)⟩)
        ++ allUses (truncList rs ⟨cut, hi⟩)).Perm (allUses rs) := by
  have hw : W = 18446744073709551616 := by norm_num [W]
  have hW2 : cut < 18446744073709551616 := by rw [← hw]; exact hW
  have hprev : cpLate (cpPrevInst cut) = cut - 1 := by
    simp only [cpLate, cpPrevInst, cpEarly, hw]
    omega
  rw [hprev]
  exact ⟨trunc_covers lo hi cut h2 hlo hhi rs hb,
    trunc_uses lo hi cut h2 hlo hhi rs hb hu⟩

/-- Witness: the amended conservation theorem at the even split point `4`
on the bundle `[0,9]` with a use at `4`. -/
theorem c6_split_conservation_amended_witness :
    (∀ p : Nat,
      coversPoint (truncList c6rs ⟨0, cpLate (cpPrevInst 4)⟩
        ++ truncList c6rs ⟨4, 9⟩) p = coversPoint c6rs p)
    ∧ (allUses (truncList c6rs ⟨0, cpLate (cpPrevInst 4)⟩)
        ++ allUses (truncList c6rs ⟨4, 9⟩)).Perm (allUses c6rs) :=
  c6_split_conservation_amended c6rs 0 9 4 (by decide) (by decide) (by decide)
    (by decide) (by decide) (by decide) (by decide)

/-! ## Stitch-discovery lemmas -/

theorem insertSorted_perm {α : Type} (lt : α → α → Bool) (x : α) :
    ∀ l : List α, (insertSorted lt x l).Perm (x :: l)
  | [] => List.Perm.refl _
  | y :: ys => by
    simp only [insertSorted]
    cases h : lt y x with
    | true =>
      simp only [if_true]
      exact ((insertSorted_perm lt x ys).cons y).trans (List.Perm.swap x y ys)
    | false =>
      simp only [Bool.false_eq_true, if_false]
      exact List.Perm.refl _

theorem sortByLt_perm {α : Type} (lt : α → α → Bool) :
    ∀ l : List α, (sortByLt lt l).Perm l
  | [] => List.Perm.refl _
  | x :: xs => by
    simp only [sortByLt, List.foldr_cons]
    exact (insertSorted_perm lt x _).trans ((sortByLt_perm lt xs).cons x)

theorem vlookup_vinsert_same (m : List (VReg × ORange)) (k : VReg) (r : ORange) :
    vlookup (vinsert m k r) k = some r := by
  simp [vlookup, vinsert]

theorem vlookup_vinsert_ne (m : List (VReg × ORange)) (k v : VReg) (r : ORange)
    (h : (k == v) = false) :
    vlookup (vinsert m k r) v = vlookup m v := by
  simp [vlookup, vinsert, List.find?_cons, h]

/-- When no two ranges share an interval (and none is in `seen`), the
interval-map pass keeps every range. -/
theorem dedup_eq_self :
    ∀ (l : List ORange) (seen : List Interval),
      (l.map ORange.interval).Nodup →
      (∀ r ∈ l, r.interval ∉ seen) →
      dedupByInterval seen l = l
  | [], _, _, _ => rfl
  | r :: rest, seen, hnd, hseen => by
    have hmem : r.interval ∉ seen := hseen r (List.mem_cons_self r rest)
    have h1 : seen.contains r.interval = false := by
      simpa using hmem
    have hnd2 : (∀ x ∈ rest, ¬ x.interval = r.interval)
        ∧ (rest.map ORange.interval).Nodup := by
      simpa using hnd
    simp only [dedupByInterval, h1, Bool.false_eq_true, if_false]
    congr 1
    apply dedup_eq_self rest (r.interval :: seen) hnd2.2
    intro x hx
    simp only [List.mem_cons]
    rintro (hxr | hxs)
    · exact hnd2.1 x hx hxr
    · exact hseen x (List.mem_cons_of_mem r hx) hxs

/-- Projecting the emission walk onto one virtual register yields the
per-vreg anchor walk over that vreg's subsequence. -/
theorem stitchWalk_filter (v : VReg) :
    ∀ (l : List ORange) (last : List (VReg × ORange)),
      (stitchWalk last l).filter (fun s => s.vreg == v)
        = chainStitches (vlookup last v) (l.filter (fun r => r.vreg == v))
  | [], last => by
    cases h : vlookup last v <;> simp [stitchWalk, chainStitches, h]
  | r :: rest, last => by
    cases hv : vlookup last r.vreg with
    | none =>
      cases hrv : r.vreg == v with
      | true =>
        have hveq : r.vreg = v := eq_of_beq hrv
        have hlv : vlookup last v = none := by rw [← hveq]; exact hv
        simp only [stitchWalk, hv, List.filter_cons, hrv, if_true, Bool.false_eq_true, if_false]
        rw [stitchWalk_filter v rest (vinsert last r.vreg r), hveq,
          vlookup_vinsert_same, hlv]
        simp [chainStitches]
      | false =>
        simp only [stitchWalk, hv, List.filter_cons, hrv, if_true, Bool.false_eq_true, if_false]
        rw [stitchWalk_filter v rest (vinsert last r.vreg r),
          vlookup_vinsert_ne last r.vreg v r hrv]
    | some p =>
      cases hpa : p.alloc == r.alloc with
      | true =>
        have hpaeq : p.alloc = r.alloc := eq_of_beq hpa
        cases hrv : r.vreg == v with
        | true =>
          have hveq : r.vreg = v := eq_of_beq hrv
          have hlv : vlookup last v = some p := by rw [← hveq]; exact hv
          simp only [stitchWalk, hv, hpa, List.filter_cons, hrv, if_true, Bool.false_eq_true, if_false]
          rw [stitchWalk_filter v rest last, hlv]
          simp [chainStitches, hpa]
        | false =>
          simp only [stitchWalk, hv, hpa, List.filter_cons, hrv, if_true, Bool.false_eq_true, if_false]
          rw [stitchWalk_filter v rest last]
      | false =>
        cases hrv : r.vreg == v with
        | true =>
          have hveq : r.vreg = v := eq_of_beq hrv
          have hlv : vlookup last v = some p := by rw [← hveq]; exact hv
          simp only [stitchWalk, hv, hpa, List.filter_cons, hrv, if_true, Bool.false_eq_true, if_false]
          rw [stitchWalk_filter v rest (vinsert last r.vreg r), hveq,
            vlookup_vinsert_same, hlv]
          simp [chainStitches, hpa, hrv, hveq]
        | false =>
          simp only [stitchWalk, hv, hpa, List.filter_cons, hrv, if_true, Bool.false_eq_true, if_false]
          rw [stitchWalk_filter v rest (vinsert last r.vreg r),
            vlookup_vinsert_ne last r.vreg v r hrv]

/-- C7 counterexample.  First input: `v0` has ranges `[0,3] ↦ Reg` and
`[4,9] ↦ Spill`, but `v1` owns a range with the *same* interval `[4,9]`
that sorts earlier; the interval map keeps only the first, so `v0`'s
consecutive differing pair emits *no* stitch, where the claim's walk
emits one at `4`.  Second input: one vreg with allocations `A, A, B` —
the walk does not advance `last_used` past the equal-allocation range, so
the stitch is emitted at `next_inst` of the *first* range's end (`2`),
not of the immediately preceding range's end (`4`) as the claim states. -/
theorem c7_dedup_and_anchor_cex :
    discover_stitches c7rs1 = []
    ∧ spec_chain_stitches none
        ((sortByLt ORange.keyLt c7rs1).filter (fun r => r.vreg == ⟨0, tyI32⟩))
        = [⟨4, ⟨2⟩, ⟨7⟩, ⟨0, tyI32⟩⟩]
    ∧ discover_stitches c7rs2 = [⟨2, ⟨2⟩, ⟨7⟩, ⟨0, tyI32⟩⟩]
    ∧ spec_chain_stitches none (sortByLt ORange.keyLt c7rs2)
        = [⟨4, ⟨2⟩, ⟨7⟩, ⟨0, tyI32⟩⟩] := by
  exact ⟨rfl, rfl, rfl, rfl⟩

/-- C7 (amended): provided no two ranges share an exact interval, the
stitches `discover_stitches` emits for each virtual register are exactly
those of the anchor walk over that vreg's ranges in sorted order: a range
whose allocation differs from the anchor's emits one stitch `{vreg,
from := anchor.allocation, to := range.allocation, at :=
anchor.end.next_inst()}` and becomes the new anchor; a range with an
equal allocation emits nothing and leaves the anchor unchanged. -/
theorem c7_stitch_discovery_amended (rs : List ORange)
    (h : (rs.map ORange.interval).Nodup) :
    ∀ v : VReg,
      (discover_stitches rs).filter (fun s => s.vreg == v)
        = chainStitches none
            ((sortByLt ORange.keyLt rs).filter (fun r => r.vreg == v)) := by
  intro v
  have hperm : ((sortByLt ORange.keyLt rs).map ORange.interval).Perm
      (rs.map ORange.interval) := (sortByLt_perm ORange.keyLt rs).map _
  have hnd : ((sortByLt ORange.keyLt rs).map ORange.interval).Nodup :=
    (hperm.nodup_iff).mpr h
  unfold discover_stitches
  rw [dedup_eq_self (sortByLt ORange.keyLt rs) [] hnd (by simp)]
  exact stitchWalk_filter v (sortByLt ORange.keyLt rs) []

/-- Witness: the amended stitch theorem on the three-range input of one
vreg with allocations `A, A, B` (distinct intervals). -/
theorem c7_stitch_discovery_amended_witness :
    (discover_stitches c7rs2).filter (fun s => s.vreg == ⟨0, tyI32⟩)
      = chainStitches none
          ((sortByLt ORange.keyLt c7rs2).filter (fun r => r.vreg == ⟨0, tyI32⟩)) :=
  c7_stitch_discovery_amended c7rs2 (by decide) ⟨0, tyI32⟩

/-- C9: the Allocation encoding does not round-trip.  `Allocation::reg`
ORs the 8-bit encoding over the tag bits (bits 0-1) and the class bits
(bits 2-3): `reg(Register{Int, 1})` has bits `0b11`, which reads back as a
spill, and even `reg(Register{Int, 0})` reads its encoding back as `2`
(the tag).  `Allocation::spill(0)` reads its slot back as `3`.  The
sentinel `Allocation::spill()` stores slot `0x0FFF`, but `is_nullspill`
compares `spill_slot()` (a 12-bit value) against `0xFFFF`, so it is false
even on the sentinel itself. -/
theorem c9_allocation_encoding_broken :
    Allocation.isReg (Allocation.reg ⟨RegClass.int, 1⟩) = false
    ∧ Allocation.regOf (Allocation.reg ⟨RegClass.int, 0⟩) = ⟨RegClass.int, 2⟩
    ∧ Allocation.regOf (Allocation.reg ⟨RegClass.int, 0⟩) ≠ ⟨RegClass.int, 0⟩
    ∧ Allocation.spillSlot (Allocation.spill 0) = 3
    ∧ Allocation.isNullspill Allocation.spillSentinel = false := by
  refine ⟨rfl, rfl, ?_, rfl, rfl⟩
  decide

/-- C10: `CodePoint` stepping is modular on the underlying `size_t`:
`next_inst` is `early + 2` and `prev_inst` is `early - 2`, both modulo
`2^64`, so `prev_inst` on the points `0` and `1` wraps to `2^64 - 2`
rather than signalling an error, and the left-boundary expression
`at.prev_inst().late()` used by `try_split` evaluates to the near-maximal
point `2^64 - 1` when `at` lies in the first instruction slot. -/
theorem c10_codepoint_stepping_modular :
    cpPrevInst 0 = 2 ^ 64 - 2
    ∧ cpPrevInst 1 = 2 ^ 64 - 2
    ∧ cpLate (cpPrevInst 0) = 2 ^ 64 - 1
    ∧ cpLate (cpPrevInst 1) = 2 ^ 64 - 1
    ∧ cpNextInst 4 = 6
    ∧ cpPrevInst 4 = 2
    ∧ (∀ p : Nat, cpNextInst p = (cpEarly p + 2) % 2 ^ 64
        ∧ cpPrevInst p = (cpEarly p + (2 ^ 64 - 2)) % 2 ^ 64) := by
  refine ⟨by decide, by decide, by decide, by decide, by decide, by decide, ?_⟩
  intro p
  exact ⟨rfl, rfl⟩

end Azm
